import Mathlib

/-!
Verification of the response-interpretation and batch-evaluation pipeline of
the cosmos-reason2-examples repository (src/video_evaluator.py and
src/cosmos_client.py).

Text is modelled as `List Char` (ASCII; the Python sources only ever match
ASCII patterns, and Python's `str.upper`/`str.lower`/`\w`/`\s` agree with the
model on ASCII input).  The regular-expression calls of the source are
embedded as explicit leftmost-scan functions whose semantics follow Python's
`re.search` on the concrete patterns used by the code.
-/

namespace CosmosReason2

/-- Python's whitespace class `\s` restricted to ASCII: space, tab, newline,
carriage return, vertical tab, form feed (also the set stripped by
`str.strip()`). -/
def isPySpace (c : Char) : Bool :=
  c == ' ' || c == '\t' || c == '\n' || c == '\r' || c == '\x0b' || c == '\x0c'

/-- Python's word-character class `\w` restricted to ASCII:
letters, digits and underscore. -/
def isWordChar (c : Char) : Bool :=
  c.isAlpha || c.isDigit || c == '_'

/-- Python `str.strip()`: remove leading and trailing whitespace. -/
def pyStrip (s : List Char) : List Char :=
  ((s.dropWhile isPySpace).reverse.dropWhile isPySpace).reverse

/-- Python `str.upper()` on ASCII text. -/
def pyUpper (s : List Char) : List Char := s.map Char.toUpper

/-- Lower-case image of a string; case-insensitive matching (`re.IGNORECASE`)
is modelled by exact matching of lower-case images. -/
def lowl (s : List Char) : List Char := s.map Char.toLower

/-- Index of the leftmost exact occurrence of `pat` in the scanned text
(`re.search` with a literal pattern): `none` when `pat` never occurs. -/
def sFind (pat : List Char) : List Char → Option Nat
  | [] => if pat.isEmpty then some 0 else none
  | c :: cs => if pat.isPrefixOf (c :: cs) then some 0 else (sFind pat cs).map (· + 1)

/-- Python's `pat in s` substring test. -/
def hasOcc (pat s : List Char) : Bool := (sFind pat s).isSome

/-- Leftmost case-insensitive occurrence of `pat` in `s`
(`re.search` with `re.IGNORECASE`). -/
def ciFind (pat s : List Char) : Option Nat := sFind (lowl pat) (lowl s)

/-- `re.search(open + '(.*?)' + close, s, re.DOTALL | re.IGNORECASE)`,
returning group 1: content between the leftmost occurrence of the opening
marker and the first occurrence of the closing marker after it.  If the
closing marker never occurs after the first opening marker it cannot occur
after any later one either, so the whole search fails. -/
def ciSearchLazy (op cl s : List Char) : Option (List Char) :=
  match ciFind op s with
  | none => none
  | some i =>
    match ciFind cl (s.drop (i + op.length)) with
    | none => none
    | some j => some ((s.drop (i + op.length)).take j)

/-- The three-way verdict of the batch evaluator (spec: enumeration
{PASS, FAIL, UNCLEAR}). -/
inductive Verdict where
  | PASS
  | FAIL
  | UNCLEAR
deriving DecidableEq

/-- `video_evaluator.evaluate_video`, lines 40-46: the verdict computed from
the upper-cased answer by substring tests, `'YES'` before `'NO'`. -/
def verdictOf (answerUpper : List Char) : Verdict :=
  if hasOcc ("YES".toList) answerUpper then Verdict.PASS
  else if hasOcc ("NO".toList) answerUpper then Verdict.FAIL
  else Verdict.UNCLEAR

/-- The spec's `classify`: verdict of an answer string; the code upper-cases
the answer (`answer_upper = answer.upper()`) and then tests membership of
the literals `'YES'` and `'NO'`. -/
def classify (answer : List Char) : Verdict := verdictOf (pyUpper answer)

/-- The literal `'Assistant:'` of both regexes in `evaluate_video`. -/
def assistantLit : List Char := "Assistant:".toList

/-- The literal `'Reasoning:'` of the reasoning regex in `evaluate_video`. -/
def reasoningLit : List Char := "Reasoning:".toList

/-- The 20-dash separator literal of the reasoning regex. -/
def dashesLit : List Char := "--------------------".toList

/-- One attempt of `re.search(r'Assistant:\s*(\w+)', output)` at a fixed
start position: the literal, then greedy `\s*`, then `\w+` (at least one
word character; `\s` and `\w` are disjoint, so greedy matching of the
whitespace run is exact). -/
def tokAt (s : List Char) : Option (List Char) :=
  if assistantLit.isPrefixOf s then
    if (((s.drop assistantLit.length).dropWhile isPySpace).takeWhile isWordChar).isEmpty
    then none
    else some (((s.drop assistantLit.length).dropWhile isPySpace).takeWhile isWordChar)
  else none

/-- Group 1 of `re.search(r'Assistant:\s*(\w+)', output)`: scan start
positions left to right, returning the token of the first position where the
whole pattern matches. -/
def assistantTok : List Char → Option (List Char)
  | [] => none
  | c :: cs =>
    match tokAt (c :: cs) with
    | some w => some w
    | none => assistantTok cs

/-- Does the separator alternative `--------------------\s*Assistant:` of the
reasoning regex match at the head of `s`? -/
def sepAt (s : List Char) : Bool :=
  dashesLit.isPrefixOf s &&
    assistantLit.isPrefixOf ((s.drop dashesLit.length).dropWhile isPySpace)

/-- The lazy group `(.*?)(?:--------------------\s*Assistant:|$)` with
`re.DOTALL`: extend the group one character at a time, stopping at the first
position where the separator matches or where `$` matches (`$` without
`re.MULTILINE` matches at the end of input and just before a trailing
newline). -/
def reBody : List Char → List Char
  | [] => []
  | c :: rest =>
    if sepAt (c :: rest) then []
    else if c == '\n' && rest.isEmpty then []
    else c :: reBody rest

/-- Group 1 of
`re.search(r'Reasoning:\s*(.*?)(?:--------------------\s*Assistant:|$)',
output, re.DOTALL)`.  Because the `$` alternative always eventually matches,
the pattern succeeds at the first occurrence of the literal `Reasoning:`
(and fails only when that literal never occurs). -/
def reasoningGroup (s : List Char) : Option (List Char) :=
  match sFind reasoningLit s with
  | none => none
  | some i => some (reBody ((s.drop (i + reasoningLit.length)).dropWhile isPySpace))

/-- Result of `video_evaluator.evaluate_video` (its pure part): the verdict,
the full captured output, the extracted answer and the extracted reasoning.
The subprocess is an external boundary; its captured standard output is the
function's input. -/
structure EvalOut where
  verdict : Verdict
  output : List Char
  answer : List Char
  reasoning : List Char
deriving DecidableEq

/-- `video_evaluator.evaluate_video`, lines 24-48, as a function of the
captured subprocess output. -/
def evaluate_video (output : List Char) : EvalOut :=
  let ansTok := assistantTok output
  let answer := match ansTok with
    | some w => pyStrip w
    | none => "UNKNOWN".toList
  let answerUpper := match ansTok with
    | some w => pyUpper (pyStrip w)
    | none => "UNKNOWN".toList
  let reasoning := match reasoningGroup output with
    | some g => pyStrip g
    | none => "N/A".toList
  { verdict := verdictOf answerUpper
    output := output
    answer := answer
    reasoning := reasoning }

/-- `'<think>'` marker of `cosmos_client.parse_reasoning`. -/
def thinkO : List Char := "<think>".toList

/-- `'</think>'` marker of `cosmos_client.parse_reasoning`. -/
def thinkC : List Char := "</think>".toList

/-- `'<answer>'` marker of `cosmos_client.parse_reasoning`. -/
def ansO : List Char := "<answer>".toList

/-- `'</answer>'` marker of `cosmos_client.parse_reasoning`. -/
def ansC : List Char := "</answer>".toList

/-- `cosmos_client.parse_reasoning`, lines 47-57: search for the think and
answer sections (case-insensitive, dot matches newline); when both are
present return the stripped groups and `True`, otherwise the whole stripped
text as answer, `None` reasoning and `False`. -/
def parse_reasoning (content : List Char) : Option (List Char) × List Char × Bool :=
  match ciSearchLazy thinkO thinkC content, ciSearchLazy ansO ansC content with
  | some t, some a => (some (pyStrip t), pyStrip a, true)
  | some _, none => (none, pyStrip content, false)
  | none, some _ => (none, pyStrip content, false)
  | none, none => (none, pyStrip content, false)

/-- One row of the batch result set (`results.append({...})` in
`batch_evaluate`); the path is modelled by the file name and the timestamp
is supplied by the caller (external clock). -/
structure EvalRecord where
  video : List Char
  video_path : List Char
  verdict : Verdict
  answer : List Char
  reasoning : List Char
  timestamp : List Char
deriving DecidableEq

/-- Build one `EvalRecord` from a file name and the captured subprocess
output, as the loop body of `batch_evaluate` does. -/
def mkRecord (name transcript ts : List Char) : EvalRecord :=
  let e := evaluate_video transcript
  { video := name
    video_path := name
    verdict := e.verdict
    answer := e.answer
    reasoning := e.reasoning
    timestamp := ts }

/-- Does a file name match the glob pattern `*.mp4`? -/
def isMp4Name (name : List Char) : Bool := (".mp4".toList).isSuffixOf name

/-- `video_evaluator.batch_evaluate`: the input folder is modelled as the
listing of (file name, captured subprocess output) pairs; the function
filters for `*.mp4`, returns `none` when no video matches (no CSV written,
the code prints a message and returns `None`), and otherwise the record
sequence that is written to the CSV (`some`). -/
def batch_evaluate (folder : List (List Char × List Char)) (ts : List Char) :
    Option (List EvalRecord) :=
  let videos := folder.filter (fun f => isMp4Name f.1)
  if videos.isEmpty then none
  else some (videos.map (fun f => mkRecord f.1 f.2 ts))

/-- The aggregate summary printed by `batch_evaluate`, lines 105-113:
tallies by verdict and the printed percentages `count / total * 100`
(modelled in exact arithmetic; the code evaluates the same expression in
floating point). -/
structure Summary where
  total : Nat
  passed : Nat
  failed : Nat
  unclear : Nat
  passPct : ℚ
  failPct : ℚ
  unclearPct : ℚ
deriving DecidableEq

/-- The pure reduction of a record sequence into the printed summary. -/
def summarize (rs : List EvalRecord) : Summary :=
  let total := rs.length
  let passed := rs.countP (fun r => r.verdict == Verdict.PASS)
  let failed := rs.countP (fun r => r.verdict == Verdict.FAIL)
  let unclear := rs.countP (fun r => r.verdict == Verdict.UNCLEAR)
  { total := total
    passed := passed
    failed := failed
    unclear := unclear
    passPct := (passed : ℚ) / (total : ℚ) * 100
    failPct := (failed : ℚ) / (total : ℚ) * 100
    unclearPct := (unclear : ℚ) / (total : ℚ) * 100 }

/-- `video_evaluator.main`, lines 173-179: run `batch_evaluate` and finish;
whether or not the result is `None`, `main` returns normally, so the process
exit status is 0 (argparse errors and uncaught exceptions aside). -/
def video_evaluator_main (folder : List (List Char × List Char)) (ts : List Char) : Nat :=
  let df := batch_evaluate folder ts
  match df with
  | some _ => 0
  | none => 0

/-- The caller-visible outcomes of `cosmos_client.process_file`:
`success content`, or one of the distinct failure prints, each of which
makes the function return `None`. -/
inductive ClientOutcome where
  | success (content : List Char)
  | errNotFound
  | errUnsupported
  | errRead
  | errPromptFile
  | errConnection
  | errTimeout
  | errHTTP
  | errParse
deriving DecidableEq

/-- `cosmos_client.main`, lines 270-275: exit 1 when `process_file` returned
`None`, exit 0 otherwise. -/
def process_file_exit (o : ClientOutcome) : Nat :=
  match o with
  | ClientOutcome.success _ => 0
  | _ => 1

/-- `cosmos_client.main`, lines 242-244: the `test` command calls
`test_connection()` and then `sys.exit(0)` regardless of whether the
connection succeeded. -/
def test_mode_exit (connected : Bool) : Nat :=
  match connected with
  | true => 0
  | false => 0

/-- The file-type classification of `cosmos_client.process_file`,
lines 90-103: the lower-cased suffix is looked up in the fixed video and
image extension lists. -/
def VIDEO_EXTENSIONS : List (List Char) :=
  [".mp4".toList, ".avi".toList, ".mov".toList, ".mkv".toList, ".webm".toList]

/-- The fixed image extension list of `cosmos_client`. -/
def IMAGE_EXTENSIONS : List (List Char) :=
  [".jpg".toList, ".jpeg".toList, ".png".toList, ".webp".toList, ".gif".toList]

/-- Media kind assigned by `process_file`. -/
inductive FileType where
  | video
  | image
deriving DecidableEq

/-- Extension → media kind, or `none` for the unsupported-extension error. -/
def extFileType (ext : List Char) : Option FileType :=
  if VIDEO_EXTENSIONS.contains ext then some FileType.video
  else if IMAGE_EXTENSIONS.contains ext then some FileType.image
  else none

/-- The observable step at which `cosmos_client.process_file` stops before
(or at) the network boundary. -/
inductive ProcStep where
  | errNotFound
  | errUnsupported
  | errRead
  | errPromptFile
  | sendRequest (ft : FileType)
deriving DecidableEq

/-- The staged control flow of `process_file`, lines 84-174, up to the
`requests.post` call: existence check, extension check on the lower-cased
suffix, file read, prompt resolution, and only then the HTTP request.  The
booleans stand for the outcomes of the external filesystem/YAML boundaries. -/
def process_file_steps (fileExists : Bool) (ext0 : List Char)
    (readOk promptOk : Bool) : ProcStep :=
  if fileExists = false then ProcStep.errNotFound
  else
    match extFileType (lowl ext0) with
    | none => ProcStep.errUnsupported
    | some ft =>
      if readOk = false then ProcStep.errRead
      else if promptOk = false then ProcStep.errPromptFile
      else ProcStep.sendRequest ft

/-- Modelled from the words of claim C9: "the first maximal run of word
characters following the marker" — after the first occurrence of
`Assistant:`, skip any non-word characters and take the maximal word-character
run there (compared below against what the code actually extracts). -/
def specMarkerWordRun (s : List Char) : Option (List Char) :=
  match sFind assistantLit s with
  | none => none
  | some i =>
    if (((s.drop (i + assistantLit.length)).dropWhile
        (fun c => !isWordChar c)).takeWhile isWordChar).isEmpty
    then none
    else some (((s.drop (i + assistantLit.length)).dropWhile
        (fun c => !isWordChar c)).takeWhile isWordChar)

/-- Does `s` contain a well-formed delimited section: a case-insensitive
occurrence of the open marker together with a case-insensitive occurrence of
the close marker starting at or after the end of that open marker?  The
search is bounded by `s.length`; a non-empty marker cannot occur at a
position beyond it. -/
def hasSection (op cl s : List Char) : Bool :=
  (List.range s.length).any fun i =>
    (lowl op).isPrefixOf ((lowl s).drop i) &&
      (List.range s.length).any fun j =>
        decide (i + op.length ≤ j) && (lowl cl).isPrefixOf ((lowl s).drop j)

/-- A well-formed think section followed by a well-formed answer section:
the content splits into prefix, think-open marker (any casing), think body,
think-close marker, middle, answer-open marker, answer body, answer-close
marker and tail, and no (case-insensitive) occurrence of a marker precedes
its designated position. -/
def SectionsTA (content tb ab : List Char) : Prop :=
  ∃ p m r tO tC aO aC : List Char,
    content = p ++ tO ++ tb ++ tC ++ m ++ aO ++ ab ++ aC ++ r ∧
    lowl tO = thinkO ∧ lowl tC = thinkC ∧ lowl aO = ansO ∧ lowl aC = ansC ∧
    hasOcc thinkO ((lowl p ++ thinkO).dropLast) = false ∧
    hasOcc thinkC ((lowl tb ++ thinkC).dropLast) = false ∧
    hasOcc ansO ((lowl p ++ thinkO ++ lowl tb ++ thinkC ++ lowl m ++ ansO).dropLast) = false ∧
    hasOcc ansC ((lowl ab ++ ansC).dropLast) = false

/-- A well-formed answer section followed by a well-formed think section
(the reordered counterpart of `SectionsTA`). -/
def SectionsAT (content tb ab : List Char) : Prop :=
  ∃ p m r tO tC aO aC : List Char,
    content = p ++ aO ++ ab ++ aC ++ m ++ tO ++ tb ++ tC ++ r ∧
    lowl tO = thinkO ∧ lowl tC = thinkC ∧ lowl aO = ansO ∧ lowl aC = ansC ∧
    hasOcc ansO ((lowl p ++ ansO).dropLast) = false ∧
    hasOcc ansC ((lowl ab ++ ansC).dropLast) = false ∧
    hasOcc thinkO ((lowl p ++ ansO ++ lowl ab ++ ansC ++ lowl m ++ thinkO).dropLast) = false ∧
    hasOcc thinkC ((lowl tb ++ thinkC).dropLast) = false

lemma hasOcc_nil_pat (t : List Char) : hasOcc [] t = true := by
  cases t <;> rfl

lemma sFind_some_prefix (pat : List Char) :
    ∀ (t : List Char) (i : Nat), sFind pat t = some i →
      pat.isPrefixOf (t.drop i) = true := by
  intro t
  induction t with
  | nil =>
    intro i h
    rw [sFind] at h
    by_cases hp : pat.isEmpty = true
    · rw [if_pos hp] at h
      cases h
      rw [List.isEmpty_iff] at hp
      subst hp
      rfl
    · rw [if_neg hp] at h
      exact Option.noConfusion h
  | cons c cs ih =>
    intro i h
    rw [sFind] at h
    by_cases hp : pat.isPrefixOf (c :: cs) = true
    · rw [if_pos hp] at h
      cases h
      exact hp
    · rw [if_neg hp] at h
      cases e : sFind pat cs with
      | none => rw [e] at h; exact Option.noConfusion h
      | some j =>
        rw [e] at h
        cases h
        simpa using ih j e

lemma sFind_some_bound (pat t : List Char) (i : Nat) (hp : pat ≠ [])
    (h : sFind pat t = some i) : i + pat.length ≤ t.length := by
  have hpre := sFind_some_prefix pat t i h
  rw [List.isPrefixOf_iff_prefix] at hpre
  have hlen := hpre.length_le
  rw [List.length_drop] at hlen
  have hpos : 0 < pat.length := List.length_pos.mpr hp
  omega

lemma hasOcc_of_isPrefixOf {pat t : List Char} (h : pat.isPrefixOf t = true) :
    hasOcc pat t = true := by
  cases t with
  | nil =>
    rw [List.isPrefixOf_iff_prefix] at h
    rw [List.prefix_nil] at h
    subst h
    rfl
  | cons c cs =>
    rw [hasOcc, sFind, if_pos h]
    rfl

lemma hasOcc_cons_false {pat : List Char} {c : Char} {t : List Char}
    (h : hasOcc pat (c :: t) = false) :
    hasOcc pat t = false ∧ pat.isPrefixOf (c :: t) = false := by
  rw [hasOcc, sFind] at h
  by_cases hp : pat.isPrefixOf (c :: t) = true
  · rw [if_pos hp] at h
    exact Bool.noConfusion h
  · rw [if_neg hp] at h
    refine ⟨?_, by rwa [Bool.not_eq_true] at hp⟩
    rw [hasOcc]
    cases e : sFind pat t with
    | none => rfl
    | some j => rw [e] at h; exact Bool.noConfusion h

lemma prefix_isPrefixOf_of_le {pat s t : List Char} (hst : s <+: t)
    (h : pat.isPrefixOf t = true) (hl : pat.length ≤ s.length) :
    pat.isPrefixOf s = true := by
  rw [List.isPrefixOf_iff_prefix] at h ⊢
  exact List.prefix_of_prefix_length_le h hst hl

lemma dropLastCons {c : Char} {l : List Char} (h : l ≠ []) :
    (c :: l).dropLast = c :: l.dropLast := by
  cases l with
  | nil => exact absurd rfl h
  | cons a as => rfl

lemma sFind_append_shape (pat x y : List Char)
    (h : hasOcc pat ((x ++ pat).dropLast) = false) :
    sFind pat (x ++ pat ++ y) = some x.length := by
  have hp : pat ≠ [] := by
    intro e
    subst e
    rw [hasOcc_nil_pat] at h
    exact Bool.noConfusion h
  induction x with
  | nil =>
    cases pat with
    | nil => exact absurd rfl hp
    | cons q qs =>
      show sFind (q :: qs) ((q :: qs) ++ y) = some 0
      rw [show (q :: qs) ++ y = q :: (qs ++ y) from rfl, sFind, if_pos]
      exact List.isPrefixOf_iff_prefix.mpr (List.prefix_append (q :: qs) y)
  | cons c x' ih =>
    have hxp : x' ++ pat ≠ [] := by
      simp [List.append_eq_nil, hp]
    have hdl : ((c :: x') ++ pat).dropLast = c :: (x' ++ pat).dropLast := by
      rw [show (c :: x') ++ pat = c :: (x' ++ pat) from rfl]
      exact dropLastCons hxp
    rw [hdl] at h
    have h' : hasOcc pat ((x' ++ pat).dropLast) = false := (hasOcc_cons_false h).1
    have hprefOld : pat.isPrefixOf (c :: (x' ++ pat).dropLast) = false := by
      by_contra hcon
      rw [Bool.not_eq_false] at hcon
      have := hasOcc_of_isPrefixOf hcon
      rw [this] at h
      exact Bool.noConfusion h
    have hnp : pat.isPrefixOf (c :: (x' ++ pat ++ y)) = false := by
      by_contra hcon
      rw [Bool.not_eq_false] at hcon
      have hsp : (c :: (x' ++ pat).dropLast) <+: (c :: (x' ++ pat ++ y)) := by
        rw [List.cons_prefix_cons]
        exact ⟨rfl, (List.dropLast_prefix (x' ++ pat)).trans
          (List.prefix_append (x' ++ pat) y)⟩
      have hlen : pat.length ≤ (c :: (x' ++ pat).dropLast).length := by
        have hpos : 0 < pat.length := List.length_pos.mpr hp
        simp [List.length_dropLast, List.length_append]
        omega
      have := prefix_isPrefixOf_of_le hsp hcon hlen
      rw [this] at hprefOld
      exact Bool.noConfusion hprefOld
    show sFind pat (c :: (x' ++ pat ++ y)) = some (x'.length + 1)
    rw [sFind, if_neg (by rw [hnp]; exact Bool.false_ne_true), ih h']
    rfl

lemma ciSearchLazy_shape (op cl opv clv p body m : List Char)
    (hopv : lowl opv = lowl op) (hclv : lowl clv = lowl cl)
    (h1 : hasOcc (lowl op) ((lowl p ++ lowl op).dropLast) = false)
    (h2 : hasOcc (lowl cl) ((lowl body ++ lowl cl).dropLast) = false) :
    ciSearchLazy op cl (p ++ opv ++ body ++ clv ++ m) = some body := by
  have hlenop : opv.length = op.length := by
    have := congrArg List.length hopv
    simpa [lowl] using this
  have e1 : ciFind op (p ++ opv ++ body ++ clv ++ m) = some p.length := by
    rw [ciFind]
    have hsplit : lowl (p ++ opv ++ body ++ clv ++ m)
        = lowl p ++ lowl op ++ (lowl body ++ lowl cl ++ lowl m) := by
      simp only [lowl, List.map_append] at hopv hclv ⊢
      simp [hopv, hclv, List.append_assoc]
    rw [hsplit, sFind_append_shape _ _ _ h1]
    simp [lowl]
  have hdrop : (p ++ opv ++ body ++ clv ++ m).drop (p.length + op.length)
      = body ++ clv ++ m := by
    have hre : p ++ opv ++ body ++ clv ++ m = (p ++ opv) ++ (body ++ clv ++ m) := by
      simp [List.append_assoc]
    rw [hre, show p.length + op.length = (p ++ opv).length from by
      simp [List.length_append, hlenop], List.drop_left]
  have e2 : ciFind cl (body ++ clv ++ m) = some body.length := by
    rw [ciFind]
    have hsplit : lowl (body ++ clv ++ m) = lowl body ++ lowl cl ++ lowl m := by
      simp only [lowl, List.map_append] at hclv ⊢
      simp [hclv, List.append_assoc]
    rw [hsplit, sFind_append_shape _ _ _ h2]
    simp [lowl]
  have e3 : (body ++ clv ++ m).take body.length = body := by
    rw [show body ++ clv ++ m = body ++ (clv ++ m) from by simp [List.append_assoc]]
    exact List.take_left body (clv ++ m)
  simp only [ciSearchLazy, e1, hdrop, e2, e3]

lemma lowl_thinkO : lowl thinkO = thinkO := by decide

lemma lowl_thinkC : lowl thinkC = thinkC := by decide

lemma lowl_ansO : lowl ansO = ansO := by decide

lemma lowl_ansC : lowl ansC = ansC := by decide

lemma hasSection_of_ciSearchLazy {op cl s g : List Char}
    (hop : op ≠ []) (hcl : cl ≠ [])
    (h : ciSearchLazy op cl s = some g) : hasSection op cl s = true := by
  rw [ciSearchLazy] at h
  cases e1 : ciFind op s with
  | none => rw [e1] at h; exact Option.noConfusion h
  | some i =>
    rw [e1] at h
    replace h : (match ciFind cl (s.drop (i + op.length)) with
        | none => none
        | some j => some ((s.drop (i + op.length)).take j)) = some g := h
    cases e2 : ciFind cl (s.drop (i + op.length)) with
    | none => rw [e2] at h; exact Option.noConfusion h
    | some j =>
      rw [ciFind] at e1 e2
      have hople : 0 < op.length := List.length_pos.mpr hop
      have hclle : 0 < cl.length := List.length_pos.mpr hcl
      have hop' : lowl op ≠ [] := by simpa [lowl] using hop
      have hcl' : lowl cl ≠ [] := by simpa [lowl] using hcl
      have p1 := sFind_some_prefix _ _ _ e1
      have b1 := sFind_some_bound _ _ _ hop' e1
      have p2 := sFind_some_prefix _ _ _ e2
      have b2 := sFind_some_bound _ _ _ hcl' e2
      simp only [lowl] at p1 p2 b1 b2 ⊢
      rw [List.map_drop, List.drop_drop] at p2
      simp only [List.length_map] at b1
      rw [List.map_drop] at b2
      simp only [List.length_map, List.length_drop] at b2
      rw [hasSection]
      simp only [lowl, List.any_eq_true, List.mem_range, Bool.and_eq_true,
        decide_eq_true_eq]
      exact ⟨i, by omega, p1, i + op.length + j, by omega, by omega, p2⟩

lemma tokAt_some {s w : List Char} (h : tokAt s = some w) :
    w ≠ [] ∧ ∀ c ∈ w, isWordChar c = true := by
  rw [tokAt] at h
  by_cases hp : assistantLit.isPrefixOf s = true
  · rw [if_pos hp] at h
    by_cases he : (((s.drop assistantLit.length).dropWhile isPySpace).takeWhile
        isWordChar).isEmpty = true
    · rw [if_pos he] at h
      exact Option.noConfusion h
    · rw [if_neg he] at h
      cases h
      refine ⟨fun e => he ?_, fun c hc => List.mem_takeWhile_imp hc⟩
      rw [e]
      rfl
  · rw [if_neg hp] at h
    exact Option.noConfusion h

lemma assistantTok_some (s w : List Char) (h : assistantTok s = some w) :
    w ≠ [] ∧ ∀ c ∈ w, isWordChar c = true := by
  induction s with
  | nil => exact Option.noConfusion h
  | cons c cs ih =>
    rw [assistantTok] at h
    cases e : tokAt (c :: cs) with
    | some w0 =>
      rw [e] at h
      cases h
      exact tokAt_some e
    | none =>
      rw [e] at h
      exact ih h

lemma beq_false_of_word {c d : Char} (h : isWordChar c = true)
    (hd : isWordChar d = false) : (c == d) = false := by
  cases e : c == d
  · rfl
  · rw [beq_iff_eq] at e
    subst e
    rw [h] at hd
    exact Bool.noConfusion hd

lemma word_not_space {c : Char} (h : isWordChar c = true) : isPySpace c = false := by
  rw [isPySpace, beq_false_of_word h (by decide), beq_false_of_word h (by decide),
    beq_false_of_word h (by decide), beq_false_of_word h (by decide),
    beq_false_of_word h (by decide), beq_false_of_word h (by decide)]
  rfl

lemma dropWhileSpaceId {l : List Char} (h : ∀ c ∈ l, isPySpace c = false) :
    l.dropWhile isPySpace = l := by
  cases l with
  | nil => rfl
  | cons c cs => simp [List.dropWhile_cons, h c (List.mem_cons_self c cs)]

lemma pyStrip_of_noSpace {w : List Char} (h : ∀ c ∈ w, isPySpace c = false) :
    pyStrip w = w := by
  rw [pyStrip, dropWhileSpaceId h,
    dropWhileSpaceId (fun c hc => h c (List.mem_reverse.mp hc)),
    List.reverse_reverse]

lemma countP_verdict_sum (rs : List EvalRecord) :
    rs.countP (fun r => r.verdict == Verdict.PASS)
      + rs.countP (fun r => r.verdict == Verdict.FAIL)
      + rs.countP (fun r => r.verdict == Verdict.UNCLEAR) = rs.length := by
  induction rs with
  | nil => rfl
  | cons r rest ih =>
    simp only [List.countP_cons, List.length_cons]
    cases hr : r.verdict <;> simp [hr] <;> omega

/-- C1 (code evaluated at the failing input): the claim says classifying the
fallback sentinel "UNKNOWN" yields UNCLEAR, never PASS or FAIL; but the code
classifies it FAIL, because the substring test finds "NO" inside "UNKNOWN".
On a transcript with no `Assistant:` marker (e.g. empty subprocess output)
the answer is the sentinel and the recorded verdict is FAIL, not UNCLEAR. -/
theorem c1_code_eval :
    classify ("UNKNOWN".toList) = Verdict.FAIL ∧
    (evaluate_video []).answer = "UNKNOWN".toList ∧
    (evaluate_video []).verdict = Verdict.FAIL := by
  decide

/-- C2: the verdict classifier is a case-insensitive substring match in
priority order on the extracted answer: if the (upper-cased) answer contains
"YES" the verdict is PASS; else if it contains "NO" the verdict is FAIL;
else the verdict is UNCLEAR. -/
theorem c2_classifier_rule (answer : List Char) :
    (hasOcc ("YES".toList) (pyUpper answer) = true → classify answer = Verdict.PASS) ∧
    (hasOcc ("YES".toList) (pyUpper answer) = false →
      hasOcc ("NO".toList) (pyUpper answer) = true → classify answer = Verdict.FAIL) ∧
    (hasOcc ("YES".toList) (pyUpper answer) = false →
      hasOcc ("NO".toList) (pyUpper answer) = false →
      classify answer = Verdict.UNCLEAR) := by
  refine ⟨fun h1 => ?_, fun h1 h2 => ?_, fun h1 h2 => ?_⟩
  · rw [classify, verdictOf, if_pos h1]
  · rw [classify, verdictOf, if_neg (by rw [h1]; exact Bool.false_ne_true),
      if_pos h2]
  · rw [classify, verdictOf, if_neg (by rw [h1]; exact Bool.false_ne_true),
      if_neg (by rw [h2]; exact Bool.false_ne_true)]

/-- Witness for C2 at the spec's own examples. -/
theorem c2_classifier_rule_witness :
    classify ("YES, this is physically plausible".toList) = Verdict.PASS ∧
    classify ("NO, the ball floats unnaturally".toList) = Verdict.FAIL ∧
    classify ("maybe".toList) = Verdict.UNCLEAR :=
  ⟨(c2_classifier_rule _).1 (by decide),
   (c2_classifier_rule _).2.1 (by decide) (by decide),
   (c2_classifier_rule _).2.2 (by decide) (by decide)⟩

/-- C3: for raw reply text containing a well-formed think section and a
well-formed answer section (case-insensitive markers, multi-line content, in
either order), the parser returns exactly the enclosed text of each section
trimmed, with reasoning non-null and `has_explicit_sections = true`. -/
theorem c3_parser_sections (content tb ab : List Char)
    (h : SectionsTA content tb ab ∨ SectionsAT content tb ab) :
    parse_reasoning content = (some (pyStrip tb), pyStrip ab, true) := by
  rcases h with ⟨p, m, r, tO, tC, aO, aC, hc, h1, h2, h3, h4, o1, o2, o3, o4⟩ |
    ⟨p, m, r, tO, tC, aO, aC, hc, h1, h2, h3, h4, o1, o2, o3, o4⟩
  · subst hc
    have et : ciSearchLazy thinkO thinkC
        (p ++ tO ++ tb ++ tC ++ m ++ aO ++ ab ++ aC ++ r) = some tb := by
      rw [show p ++ tO ++ tb ++ tC ++ m ++ aO ++ ab ++ aC ++ r
          = p ++ tO ++ tb ++ tC ++ (m ++ aO ++ ab ++ aC ++ r) from by
        simp [List.append_assoc]]
      apply ciSearchLazy_shape
      · rw [lowl_thinkO]; exact h1
      · rw [lowl_thinkC]; exact h2
      · rw [lowl_thinkO]; exact o1
      · rw [lowl_thinkC]; exact o2
    have ea : ciSearchLazy ansO ansC
        (p ++ tO ++ tb ++ tC ++ m ++ aO ++ ab ++ aC ++ r) = some ab := by
      apply ciSearchLazy_shape
      · rw [lowl_ansO]; exact h3
      · rw [lowl_ansC]; exact h4
      · rw [lowl_ansO, show lowl (p ++ tO ++ tb ++ tC ++ m)
            = lowl p ++ lowl tO ++ lowl tb ++ lowl tC ++ lowl m from by
          simp only [lowl, List.map_append], h1, h2]
        exact o3
      · rw [lowl_ansC]; exact o4
    simp only [parse_reasoning, et, ea]
  · subst hc
    have et : ciSearchLazy thinkO thinkC
        (p ++ aO ++ ab ++ aC ++ m ++ tO ++ tb ++ tC ++ r) = some tb := by
      apply ciSearchLazy_shape
      · rw [lowl_thinkO]; exact h1
      · rw [lowl_thinkC]; exact h2
      · rw [lowl_thinkO, show lowl (p ++ aO ++ ab ++ aC ++ m)
            = lowl p ++ lowl aO ++ lowl ab ++ lowl aC ++ lowl m from by
          simp only [lowl, List.map_append], h3, h4]
        exact o3
      · rw [lowl_thinkC]; exact o4
    have ea : ciSearchLazy ansO ansC
        (p ++ aO ++ ab ++ aC ++ m ++ tO ++ tb ++ tC ++ r) = some ab := by
      rw [show p ++ aO ++ ab ++ aC ++ m ++ tO ++ tb ++ tC ++ r
          = p ++ aO ++ ab ++ aC ++ (m ++ tO ++ tb ++ tC ++ r) from by
        simp [List.append_assoc]]
      apply ciSearchLazy_shape
      · rw [lowl_ansO]; exact h3
      · rw [lowl_ansC]; exact h4
      · rw [lowl_ansO]; exact o1
      · rw [lowl_ansC]; exact o2
    simp only [parse_reasoning, et, ea]

/-- Witness for C3: a concrete reply with mixed-case markers. -/
theorem c3_parser_sections_witness :
    parse_reasoning ("<THINK>hello</think><ANSWER>YES</answer>".toList)
      = (some ("hello".toList), "YES".toList, true) := by
  have h := c3_parser_sections ("<THINK>hello</think><ANSWER>YES</answer>".toList)
    ("hello".toList) ("YES".toList)
    (Or.inl ⟨"".toList, "".toList, "".toList, "<THINK>".toList, "</think>".toList,
      "<ANSWER>".toList, "</answer>".toList, by decide, by decide, by decide,
      by decide, by decide, by decide, by decide, by decide, by decide⟩)
  rw [show pyStrip ("hello".toList) = "hello".toList from by decide,
    show pyStrip ("YES".toList) = "YES".toList from by decide] at h
  exact h

/-- C4: for raw reply text lacking a well-formed think section or a
well-formed answer section, the parser returns the entire trimmed text as
the answer, reasoning absent, `has_explicit_sections = false`. -/
theorem c4_parser_fallback (content : List Char)
    (h : hasSection thinkO thinkC content = false ∨
      hasSection ansO ansC content = false) :
    parse_reasoning content = (none, pyStrip content, false) := by
  cases e1 : ciSearchLazy thinkO thinkC content with
  | none =>
    cases e2 : ciSearchLazy ansO ansC content with
    | none => simp only [parse_reasoning, e1, e2]
    | some a => simp only [parse_reasoning, e1, e2]
  | some t =>
    cases e2 : ciSearchLazy ansO ansC content with
    | none => simp only [parse_reasoning, e1, e2]
    | some a =>
      exfalso
      have ht := hasSection_of_ciSearchLazy (by decide) (by decide) e1
      have ha := hasSection_of_ciSearchLazy (by decide) (by decide) e2
      rcases h with h | h
      · rw [ht] at h; exact Bool.noConfusion h
      · rw [ha] at h; exact Bool.noConfusion h

/-- Witness for C4 at a concrete marker-free reply. -/
theorem c4_parser_fallback_witness :
    parse_reasoning (" hello ".toList) = (none, "hello".toList, false) := by
  have h := c4_parser_fallback (" hello ".toList) (Or.inl (by decide))
  rw [show pyStrip (" hello ".toList) = "hello".toList from by decide] at h
  exact h

/-- C5: for every record sequence, the tallies satisfy
`pass + fail + unclear = total`, and for nonzero total each reported
percentage equals `count / total * 100`. -/
theorem c5_aggregation (rs : List EvalRecord) :
    (summarize rs).passed + (summarize rs).failed + (summarize rs).unclear
        = (summarize rs).total ∧
    ((summarize rs).total ≠ 0 →
      (summarize rs).passPct
          = ((summarize rs).passed : ℚ) / ((summarize rs).total : ℚ) * 100 ∧
      (summarize rs).failPct
          = ((summarize rs).failed : ℚ) / ((summarize rs).total : ℚ) * 100 ∧
      (summarize rs).unclearPct
          = ((summarize rs).unclear : ℚ) / ((summarize rs).total : ℚ) * 100) :=
  ⟨countP_verdict_sum rs, fun _ => ⟨rfl, rfl, rfl⟩⟩

/-- Witness for C5 on a one-record batch. -/
theorem c5_aggregation_witness :
    (summarize [mkRecord ("a.mp4".toList) ("Assistant: YES".toList) ("t".toList)]).passed
        + (summarize [mkRecord ("a.mp4".toList) ("Assistant: YES".toList) ("t".toList)]).failed
        + (summarize [mkRecord ("a.mp4".toList) ("Assistant: YES".toList) ("t".toList)]).unclear
      = (summarize [mkRecord ("a.mp4".toList) ("Assistant: YES".toList) ("t".toList)]).total ∧
    (summarize [mkRecord ("a.mp4".toList) ("Assistant: YES".toList) ("t".toList)]).passPct
      = ((summarize [mkRecord ("a.mp4".toList) ("Assistant: YES".toList) ("t".toList)]).passed : ℚ)
        / ((summarize [mkRecord ("a.mp4".toList) ("Assistant: YES".toList) ("t".toList)]).total : ℚ)
        * 100 :=
  ⟨(c5_aggregation _).1, ((c5_aggregation _).2 (by decide)).1⟩

/-- C6 counterexample: the claim says the exit status is non-zero when no
matching input files were found; but `video_evaluator.main` never exits with
an error status: on an empty input folder `batch_evaluate` returns `None`
and `main` still finishes normally with exit status 0. -/
theorem c6_exit_counterexample : video_evaluator_main [] ("t".toList) = 0 := rfl

/-- C6 amended: exit status 0 when the requested operation completed; the
single-shot client exits 1 exactly when `process_file` failed (file
unreadable, unsupported extension, service unreachable, malformed reply);
but the batch evaluator always exits 0, even when no matching input files
were found, and the connection test exits 0 even when the service cannot be
reached. -/
theorem c6_exit_amended :
    (∀ folder ts, video_evaluator_main folder ts = 0) ∧
    (∀ content, process_file_exit (ClientOutcome.success content) = 0) ∧
    (∀ o : ClientOutcome, (∀ content, o ≠ ClientOutcome.success content) →
      process_file_exit o = 1) ∧
    (∀ connected, test_mode_exit connected = 0) := by
  refine ⟨fun folder ts => ?_, fun _ => rfl, fun o h => ?_, fun connected => ?_⟩
  · rw [video_evaluator_main]
    cases batch_evaluate folder ts <;> rfl
  · cases o <;> first | rfl | exact absurd rfl (h _)
  · cases connected <;> rfl

/-- Witness for C6 amended: a failed single-shot run exits 1, a batch run
over an empty listing exits 0, a failed connection test exits 0. -/
theorem c6_exit_amended_witness :
    process_file_exit ClientOutcome.errConnection = 1 ∧
    video_evaluator_main [] ("u".toList) = 0 ∧
    test_mode_exit false = 0 :=
  ⟨c6_exit_amended.2.2.1 ClientOutcome.errConnection
    (fun _ hcon => ClientOutcome.noConfusion hcon),
   c6_exit_amended.1 [] ("u".toList),
   c6_exit_amended.2.2.2 false⟩

/-- C7: an input folder containing no `*.mp4` files yields `None`: no output
file is written, the batch orchestrator returns without crashing. -/
theorem c7_empty_folder (folder : List (List Char × List Char)) (ts : List Char)
    (h : ∀ f ∈ folder, isMp4Name f.1 = false) :
    batch_evaluate folder ts = none := by
  have hf : folder.filter (fun f => isMp4Name f.1) = [] :=
    List.filter_eq_nil_iff.mpr (by intro a ha; simp [h a ha])
  simp [batch_evaluate, hf]

/-- Witness for C7 at a folder holding only a non-video file. -/
theorem c7_empty_folder_witness :
    batch_evaluate [("a.txt".toList, "x".toList)] ("t".toList) = none :=
  c7_empty_folder _ _ (by decide)

/-- C8: a file path whose (lower-cased) extension is in neither the video
nor the image extension list makes `process_file` stop with the
unsupported-extension input error (when the file exists; a missing file is
the not-found input error) and never reach the `requests.post` call. -/
theorem c8_unsupported_ext (fileExists readOk promptOk : Bool) (ext0 : List Char)
    (h : extFileType (lowl ext0) = none) :
    (fileExists = true →
      process_file_steps fileExists ext0 readOk promptOk = ProcStep.errUnsupported) ∧
    (∀ ft, process_file_steps fileExists ext0 readOk promptOk ≠ ProcStep.sendRequest ft) := by
  constructor
  · intro hfe
    subst hfe
    simp [process_file_steps, h]
  · intro ft
    cases fileExists <;> simp [process_file_steps, h]

/-- Witness for C8 at the spec's `.txt` example. -/
theorem c8_unsupported_ext_witness :
    process_file_steps true (".txt".toList) true true = ProcStep.errUnsupported :=
  (c8_unsupported_ext true true true (".txt".toList) (by decide)).1 rfl

/-- C9 counterexample: the claim says that for every transcript containing
an `Assistant:` marker the extracted answer is exactly the first maximal run
of word characters following the marker; but on "Assistant: .YES" the code's
regex fails (the character after the whitespace run is not a word character)
and the answer falls back to "UNKNOWN", while the first word run after the
marker is "YES". -/
theorem c9_token_counterexample :
    hasOcc assistantLit ("Assistant: .YES".toList) = true ∧
    specMarkerWordRun ("Assistant: .YES".toList) = some ("YES".toList) ∧
    (evaluate_video ("Assistant: .YES".toList)).answer = "UNKNOWN".toList ∧
    "UNKNOWN".toList ≠ "YES".toList := by
  decide

/-- C9 amended: whenever the `Assistant:` regex succeeds (some occurrence of
the marker is followed by optional whitespace and at least one word
character), the extracted answer is precisely the scanned token: a non-empty
run of word characters, hence free of whitespace and punctuation; when the
regex fails the answer is the sentinel "UNKNOWN". -/
theorem c9_token_amended :
    (∀ s w, assistantTok s = some w →
      (evaluate_video s).answer = w ∧ w ≠ [] ∧ ∀ c ∈ w, isWordChar c = true) ∧
    (∀ s, assistantTok s = none → (evaluate_video s).answer = "UNKNOWN".toList) := by
  constructor
  · intro s w h
    obtain ⟨hne, hword⟩ := assistantTok_some s w h
    refine ⟨?_, hne, hword⟩
    have hs : pyStrip w = w :=
      pyStrip_of_noSpace (fun c hc => word_not_space (hword c hc))
    simp [evaluate_video, h, hs]
  · intro s h
    simp [evaluate_video, h]

/-- Witness for C9 amended at the claim's example transcript. -/
theorem c9_token_amended_witness :
    (evaluate_video ("Assistant: YES, plausible".toList)).answer = "YES".toList :=
  (c9_token_amended.1 ("Assistant: YES, plausible".toList) ("YES".toList) (by decide)).1

/-- C10: the reasoning fallback is independent of the answer extraction: on
any transcript in which the literal `Reasoning:` never occurs, the recorded
reasoning is the sentinel "N/A" (whatever the extracted answer is). -/
theorem c10_reasoning_fallback (s : List Char)
    (h : hasOcc reasoningLit s = false) :
    (evaluate_video s).reasoning = "N/A".toList := by
  have e : sFind reasoningLit s = none := by
    cases e : sFind reasoningLit s with
    | none => rfl
    | some i =>
      rw [hasOcc, e] at h
      exact Bool.noConfusion h
  simp [evaluate_video, reasoningGroup, e]

/-- Witness for C10 at a transcript whose Assistant marker is present and
whose answer token is extracted, yet whose reasoning is the sentinel. -/
theorem c10_reasoning_fallback_witness :
    (evaluate_video ("Assistant: YES".toList)).reasoning = "N/A".toList :=
  c10_reasoning_fallback ("Assistant: YES".toList) (by decide)

end CosmosReason2
